import Mathlib

/-!
Verification of the `pretty-simple-display` crate (src/lib.rs).

The crate consists of four derive macros, `DebugPretty`, `DisplayPretty`,
`DebugSimple` and `DisplaySimple`, each emitting a `fmt` implementation that
serializes the receiver with `serde_json` (pretty or compact mode) and writes
the resulting text, or a fixed error message, to the formatter sink.

The embedding has three layers:
* a model of the external serializer `serde_json` (the JSON tree type, its
  compact and pretty text renderers, string escaping) — an external
  collaborator whose behavior the spec fixes;
* a model of the code-generation step: the four `derive_*` functions from
  src/lib.rs, each producing an emitted impl description from the derive
  input;
* a model of the runtime behavior of the emitted `fmt` body: its effect
  trace on the formatter sink.

Text is modelled as `List Char`.
-/

namespace PrettySimpleDisplay

/-- Decimal digit character, for `d < 10`. -/
def digitChar (d : Nat) : Char := Char.ofNat (48 + d)

/-- Lowercase hexadecimal digit character, for `d < 16`. -/
def hexDigit (d : Nat) : Char :=
  if d < 10 then Char.ofNat (48 + d) else Char.ofNat (87 + d)

/-- Decimal digits of a natural number, most significant first.  Fuel-indexed
structural recursion; `natDigits` supplies fuel `n + 1`, which always
suffices since the argument shrinks by a factor of ten each step. -/
def natDigitsAux : Nat → Nat → List Char
  | 0, _ => []
  | Nat.succ fuel, n =>
    if n < 10 then [digitChar n]
    else natDigitsAux fuel (n / 10) ++ [digitChar (n % 10)]

/-- Decimal representation of a natural number. -/
def natDigits (n : Nat) : List Char := natDigitsAux (n + 1) n

/-- Modelled from the spec: decimal rendering of a JSON integer by the
external serializer `serde_json` (not code of this repository); a minus sign
followed by the digits for negative values.  Numbers are restricted to
integers (floating point is outside the shallow embedding). -/
def renderInt (n : Int) : List Char :=
  if n < 0 then '-' :: natDigits n.natAbs else natDigits n.natAbs

/-- Modelled from the spec: JSON escaping of one string character by the
external serializer `serde_json` (not code of this repository).  The quote
and backslash are escaped, the control characters backspace, tab, newline,
form feed and carriage return get their short escapes, any other control
character below 0x20 becomes a lowercase `\u00XY` sequence, and every other
character is passed through unchanged. -/
def escapeChar (c : Char) : List Char :=
  if c = '"' then ['\\', '"']
  else if c = '\\' then ['\\', '\\']
  else if c = '\x08' then ['\\', 'b']
  else if c = '\t' then ['\\', 't']
  else if c = '\n' then ['\\', 'n']
  else if c = '\x0c' then ['\\', 'f']
  else if c = '\r' then ['\\', 'r']
  else if c.toNat < 32 then
    ['\\', 'u', '0', '0', hexDigit (c.toNat / 16), hexDigit (c.toNat % 16)]
  else [c]

/-- Escaped contents of a JSON string literal. -/
def escString : List Char → List Char
  | [] => []
  | c :: cs => escapeChar c ++ escString cs

/-- A JSON string literal: quote, escaped contents, quote. -/
def strLit (s : List Char) : List Char := '"' :: (escString s ++ ['"'])

mutual
/-- A JSON value tree, the intermediate result of serializing a receiver
value with the external serializer.  Arrays and objects use the mutual list
types `JArr` and `JObj` so that all recursion stays structural. -/
inductive Json where
  | null : Json
  | bool (b : Bool) : Json
  | num (n : Int) : Json
  | str (s : List Char) : Json
  | arr (xs : JArr) : Json
  | obj (fs : JObj) : Json

/-- A list of JSON array elements. -/
inductive JArr where
  | nil : JArr
  | cons (hd : Json) (tl : JArr) : JArr

/-- A list of JSON object fields, in declaration order. -/
inductive JObj where
  | nil : JObj
  | cons (key : List Char) (val : Json) (tl : JObj) : JObj
end

mutual
/-- Modelled from the spec: the compact rendering performed by
`serde_json::to_string` (external collaborator, not code of this
repository): no whitespace beyond what JSON syntax requires, single line,
minimal separators. -/
def renderC : Json → List Char
  | Json.null => ['n', 'u', 'l', 'l']
  | Json.bool true => ['t', 'r', 'u', 'e']
  | Json.bool false => ['f', 'a', 'l', 's', 'e']
  | Json.num n => renderInt n
  | Json.str s => strLit s
  | Json.arr xs => '[' :: (renderCArr xs ++ [']'])
  | Json.obj fs => '{' :: (renderCObj fs ++ ['}'])

/-- Compact rendering of array elements, comma separated. -/
def renderCArr : JArr → List Char
  | JArr.nil => []
  | JArr.cons x JArr.nil => renderC x
  | JArr.cons x (JArr.cons y tl) =>
    renderC x ++ ',' :: renderCArr (JArr.cons y tl)

/-- Compact rendering of object fields, `"key":value`, comma separated. -/
def renderCObj : JObj → List Char
  | JObj.nil => []
  | JObj.cons k v JObj.nil => strLit k ++ ':' :: renderC v
  | JObj.cons k v (JObj.cons k2 v2 tl) =>
    strLit k ++ ':' :: renderC v ++ ',' :: renderCObj (JObj.cons k2 v2 tl)
end

/-- Two-space indentation for one nesting level `d`. -/
def indentChars : Nat → List Char
  | 0 => []
  | Nat.succ d => ' ' :: ' ' :: indentChars d

mutual
/-- Modelled from the spec: the pretty rendering performed by
`serde_json::to_string_pretty` (external collaborator, not code of this
repository): two-space indentation per nesting level, one element or
key-value pair per line, scalars and empty containers rendered inline.
`d` is the current nesting depth. -/
def renderP : Json → Nat → List Char
  | Json.null, _ => ['n', 'u', 'l', 'l']
  | Json.bool true, _ => ['t', 'r', 'u', 'e']
  | Json.bool false, _ => ['f', 'a', 'l', 's', 'e']
  | Json.num n, _ => renderInt n
  | Json.str s, _ => strLit s
  | Json.arr JArr.nil, _ => ['[', ']']
  | Json.arr (JArr.cons x tl), d =>
    '[' :: '\n' ::
      (renderPArr (JArr.cons x tl) (d + 1) ++ '\n' :: indentChars d ++ [']'])
  | Json.obj JObj.nil, _ => ['{', '}']
  | Json.obj (JObj.cons k v tl), d =>
    '{' :: '\n' ::
      (renderPObj (JObj.cons k v tl) (d + 1) ++ '\n' :: indentChars d ++ ['}'])

/-- Pretty rendering of array elements, one per line at depth `d`. -/
def renderPArr : JArr → Nat → List Char
  | JArr.nil, _ => []
  | JArr.cons x JArr.nil, d => indentChars d ++ renderP x d
  | JArr.cons x (JArr.cons y tl), d =>
    indentChars d ++ renderP x d ++ ',' :: '\n' :: renderPArr (JArr.cons y tl) d

/-- Pretty rendering of object fields, `"key": value`, one per line at
depth `d`. -/
def renderPObj : JObj → Nat → List Char
  | JObj.nil, _ => []
  | JObj.cons k v JObj.nil, d =>
    indentChars d ++ strLit k ++ ':' :: ' ' :: renderP v d
  | JObj.cons k v (JObj.cons k2 v2 tl), d =>
    indentChars d ++ strLit k ++ ':' :: ' ' :: renderP v d ++
      ',' :: '\n' :: renderPObj (JObj.cons k2 v2 tl) d
end

/-- Which `serde_json` serialization function the emitted `fmt` body calls. -/
inductive SerFn where
  | toStringPretty : SerFn
  | toString : SerFn

/-- The runtime body of an emitted `fmt` implementation: which serializer
function it matches on, and the literal prefix of its error arm.  This is the
part of the emitted code that varies (or could vary) between the four derive
macros. -/
structure FmtBody where
  serFn : SerFn
  errLead : List Char

/-- Which formatting trait the emitted impl block implements. -/
inductive TraitKind where
  | debugTrait : TraitKind
  | displayTrait : TraitKind

/-- One emitted impl block: a formatting trait implemented for the named
type, with a `fmt` body. -/
structure EmittedImpl where
  traitKind : TraitKind
  typeName : List Char
  body : FmtBody

/-- The shape of the annotated type as it appears in the derive input.  The
four derive macros read only the identifier, never the shape; the shape is
carried here so that independence from it can be stated. -/
inductive TypeShape where
  | structShape (fields : List (List Char)) : TypeShape
  | enumShape (variants : List (List Char)) : TypeShape
  | unitShape : TypeShape

/-- The parsed derive input (`syn::DeriveInput`): the type identifier and
the type's shape. -/
structure DeriveInput where
  ident : List Char
  data : TypeShape

/-- The literal error-message prefix appearing in all four emitted bodies:
`Error serializing to JSON: `. -/
def errLeadText : List Char := "Error serializing to JSON: ".data

/-- Embedding of `derive_debug_pretty` (src/lib.rs, lines 204-221): emits a
`Debug` impl for the input's identifier whose `fmt` body matches on
`serde_json::to_string_pretty(self)`; only `input.ident` is read. -/
def derive_debug_pretty (input : DeriveInput) : EmittedImpl :=
  { traitKind := TraitKind.debugTrait
    typeName := input.ident
    body := { serFn := SerFn.toStringPretty, errLead := errLeadText } }

/-- Embedding of `derive_display_pretty` (src/lib.rs, lines 242-259): emits a
`Display` impl whose `fmt` body matches on
`serde_json::to_string_pretty(self)`; only `input.ident` is read. -/
def derive_display_pretty (input : DeriveInput) : EmittedImpl :=
  { traitKind := TraitKind.displayTrait
    typeName := input.ident
    body := { serFn := SerFn.toStringPretty, errLead := errLeadText } }

/-- Embedding of `derive_display_simple` (src/lib.rs, lines 280-297): emits a
`Display` impl whose `fmt` body matches on `serde_json::to_string(self)`;
only `input.ident` is read. -/
def derive_display_simple (input : DeriveInput) : EmittedImpl :=
  { traitKind := TraitKind.displayTrait
    typeName := input.ident
    body := { serFn := SerFn.toString, errLead := errLeadText } }

/-- Embedding of `derive_debug_simple` (src/lib.rs, lines 318-335): emits a
`Debug` impl whose `fmt` body matches on `serde_json::to_string(self)`;
only `input.ident` is read. -/
def derive_debug_simple (input : DeriveInput) : EmittedImpl :=
  { traitKind := TraitKind.debugTrait
    typeName := input.ident
    body := { serFn := SerFn.toString, errLead := errLeadText } }

/-- The four binding kinds of the spec: A = debug-pretty, B = display-pretty,
C = debug-simple, D = display-simple. -/
inductive BindingKind where
  | debugPretty : BindingKind
  | displayPretty : BindingKind
  | debugSimple : BindingKind
  | displaySimple : BindingKind

/-- Dispatch from a binding kind to the derive macro that services it. -/
def deriveFor : BindingKind → DeriveInput → EmittedImpl
  | BindingKind.debugPretty => derive_debug_pretty
  | BindingKind.displayPretty => derive_display_pretty
  | BindingKind.debugSimple => derive_debug_simple
  | BindingKind.displaySimple => derive_display_simple

/-- The spec's Binding Kind → JSON mode table, written from the spec's words
(A,B → pretty; C,D → simple), to be compared with what the derive macros
emit. -/
def specModeTable : BindingKind → SerFn
  | BindingKind.debugPretty => SerFn.toStringPretty
  | BindingKind.displayPretty => SerFn.toStringPretty
  | BindingKind.debugSimple => SerFn.toString
  | BindingKind.displaySimple => SerFn.toString

/-- The serialization outcome of a receiver value: the external serializer
either produces a JSON tree for it or fails with an error whose display text
is carried.  Both modes run the same `Serialize` implementation, so one
outcome is shared by the pretty and the compact call. -/
inductive SerOutcome where
  | ok (j : Json) : SerOutcome
  | err (msg : List Char) : SerOutcome

/-- The result of the `serde_json` call in the emitted body:
`to_string_pretty` renders with the pretty renderer, `to_string` with the
compact renderer; a failing receiver yields the serializer's error. -/
def runSerFn : SerFn → SerOutcome → Except (List Char) (List Char)
  | SerFn.toStringPretty, SerOutcome.ok j => Except.ok (renderP j 0)
  | SerFn.toString, SerOutcome.ok j => Except.ok (renderC j)
  | _, SerOutcome.err e => Except.error e

/-- One runtime effect of an emitted `fmt` body on the formatter sink:
either a `write!` of some text, or an abort of the program (a panic).  The
emitted bodies never produce the second. -/
inductive FmtAction where
  | write (text : List Char) : FmtAction
  | abort : FmtAction

/-- The effect trace of the emitted `fmt` body run on a receiver whose
serialization outcome is `v`: the body is a two-armed match on the
serializer call, the `Ok` arm a single `write!` of the serialized text, the
`Err` arm a single `write!` of the error prefix followed by the error's own
display text. -/
def fmtActions (b : FmtBody) (v : SerOutcome) : List FmtAction :=
  match runSerFn b.serFn v with
  | Except.ok text => [FmtAction.write text]
  | Except.error e => [FmtAction.write (b.errLead ++ e)]

/-- The text the sink accumulates from an effect trace; an abort ends the
program before any further write. -/
def sinkText : List FmtAction → List Char
  | [] => []
  | FmtAction.write t :: rest => t ++ sinkText rest
  | FmtAction.abort :: _ => []

/-- The full text one formatting call delivers to the sink. -/
def fmtOutput (b : FmtBody) (v : SerOutcome) : List Char :=
  sinkText (fmtActions b v)

/-- The text written when a value with serialization outcome `v` is formatted
under binding kind `k` derived on input `input`. -/
def bindingOutput (k : BindingKind) (input : DeriveInput) (v : SerOutcome) :
    List Char :=
  fmtOutput (deriveFor k input).body v

/-- Modelled from the spec: the external serializer's tagged-union encoding
(serde's externally tagged enums, not code of this repository).  A variant
with no associated data serializes to just its tag name as a JSON string. -/
def serializeUnitVariant (tag : List Char) : Json := Json.str tag

/-- Modelled from the spec: the external serializer's tagged-union encoding
(not code of this repository).  A variant carrying named fields serializes
to a single-key object whose key is the tag name and whose value is the
object of that variant's fields. -/
def serializeStructVariant (tag : List Char) (fields : JObj) : Json :=
  Json.obj (JObj.cons tag (Json.obj fields) JObj.nil)

/-- Modelled from the spec: the external serializer's optional-field
encoding (not code of this repository): an optional field with no value
serializes as JSON null; a present optional field serializes as its
unwrapped value directly. -/
def serializeOption : Option Json → Json
  | none => Json.null
  | some j => j

/-- JSON insignificant whitespace: space, tab, line feed, carriage return. -/
def jsonWs (c : Char) : Bool :=
  c = ' ' || c = '\t' || c = '\n' || c = '\r'

/-- Removal of insignificant whitespace from JSON text: a one-pass state
machine over the characters, keeping everything except whitespace that
occurs outside string literals.  The first flag says whether the scan is
inside a string literal, the second whether the previous in-string
character was an unconsumed backslash.  Two JSON texts with the same
`stripAux` image consist of the same token sequence, so every standard JSON
parser parses them to equal values. -/
def stripAux : Bool → Bool → List Char → List Char
  | _, _, [] => []
  | false, _, c :: cs =>
    if c = '"' then c :: stripAux true false cs
    else if jsonWs c then stripAux false false cs
    else c :: stripAux false false cs
  | true, true, c :: cs => c :: stripAux true false cs
  | true, false, c :: cs =>
    if c = '\\' then c :: stripAux true true cs
    else if c = '"' then c :: stripAux false false cs
    else c :: stripAux true false cs

/-- Insignificant-whitespace removal, started outside any string literal. -/
def stripWs (s : List Char) : List Char := stripAux false false s

theorem stripAux_keep (c : Char) (h1 : c ≠ '"') (h2 : jsonWs c = false)
    (rest : List Char) :
    stripAux false false (c :: rest) = c :: stripAux false false rest := by
  simp [stripAux, h1, h2]

theorem stripAux_ws (c : Char) (h1 : c ≠ '"') (h2 : jsonWs c = true)
    (rest : List Char) :
    stripAux false false (c :: rest) = stripAux false false rest := by
  simp [stripAux, h1, h2]

theorem stripAux_open_quote (rest : List Char) :
    stripAux false false ('"' :: rest) = '"' :: stripAux true false rest := by
  simp [stripAux]

theorem stripAux_close_quote (rest : List Char) :
    stripAux true false ('"' :: rest) = '"' :: stripAux false false rest := by
  simp [stripAux]

theorem stripAux_inStr (c : Char) (h1 : c ≠ '\\') (h2 : c ≠ '"')
    (rest : List Char) :
    stripAux true false (c :: rest) = c :: stripAux true false rest := by
  simp [stripAux, h1, h2]

theorem stripAux_esc_pair (c : Char) (rest : List Char) :
    stripAux true false ('\\' :: c :: rest) =
      '\\' :: c :: stripAux true false rest := by
  simp [stripAux]

/-- A list of characters none of which is a quote or whitespace passes
through the stripper unchanged, outside a string literal. -/
theorem stripAux_neutral (l : List Char)
    (h : ∀ c ∈ l, c ≠ '"' ∧ jsonWs c = false) (rest : List Char) :
    stripAux false false (l ++ rest) = l ++ stripAux false false rest := by
  induction l with
  | nil => rfl
  | cons c cs ih =>
    have hc := h c (List.mem_cons_self c cs)
    have hcs : ∀ x ∈ cs, x ≠ '"' ∧ jsonWs x = false :=
      fun x hx => h x (List.mem_cons_of_mem c hx)
    simp only [List.cons_append]
    rw [stripAux_keep c hc.1 hc.2, ih hcs]

theorem hexDigit_facts (d : Nat) (h : d < 16) :
    hexDigit d ≠ '\\' ∧ hexDigit d ≠ '"' ∧ hexDigit d ≠ '\n' ∧
      jsonWs (hexDigit d) = false := by
  interval_cases d <;> decide

theorem digitChar_facts (d : Nat) (h : d < 10) :
    digitChar d ≠ '"' ∧ jsonWs (digitChar d) = false := by
  interval_cases d <;> decide

theorem natDigitsAux_facts (fuel : Nat) :
    ∀ n, ∀ c ∈ natDigitsAux fuel n, c ≠ '"' ∧ jsonWs c = false := by
  induction fuel with
  | zero => intro n c hc; simp [natDigitsAux] at hc
  | succ fuel ih =>
    intro n c hc
    by_cases hn : n < 10
    · simp [natDigitsAux, hn] at hc
      exact hc ▸ digitChar_facts n hn
    · simp only [natDigitsAux, if_neg hn, List.mem_append,
        List.mem_singleton] at hc
      rcases hc with hc | hc
      · exact ih (n / 10) c hc
      · exact hc ▸ digitChar_facts (n % 10) (Nat.mod_lt n (by omega))

theorem natDigits_facts (n : Nat) :
    ∀ c ∈ natDigits n, c ≠ '"' ∧ jsonWs c = false :=
  natDigitsAux_facts (n + 1) n

theorem renderInt_facts (n : Int) :
    ∀ c ∈ renderInt n, c ≠ '"' ∧ jsonWs c = false := by
  intro c hc
  unfold renderInt at hc
  by_cases hn : n < 0
  · rw [if_pos hn] at hc
    rcases List.mem_cons.mp hc with hc | hc
    · exact hc ▸ (by decide)
    · exact natDigits_facts n.natAbs c hc
  · rw [if_neg hn] at hc
    exact natDigits_facts n.natAbs c hc

/-- An escaped character passes through the stripper unchanged when the scan
is inside a string literal with no pending backslash, and leaves the scan in
that same state. -/
theorem stripAux_escapeChar (c : Char) (rest : List Char) :
    stripAux true false (escapeChar c ++ rest) =
      escapeChar c ++ stripAux true false rest := by
  unfold escapeChar
  split_ifs with h1 h2 h3 h4 h5 h6 h7 h8
  · simp only [List.cons_append, List.nil_append]
    rw [stripAux_esc_pair]
  · simp only [List.cons_append, List.nil_append]
    rw [stripAux_esc_pair]
  · simp only [List.cons_append, List.nil_append]
    rw [stripAux_esc_pair]
  · simp only [List.cons_append, List.nil_append]
    rw [stripAux_esc_pair]
  · simp only [List.cons_append, List.nil_append]
    rw [stripAux_esc_pair]
  · simp only [List.cons_append, List.nil_append]
    rw [stripAux_esc_pair]
  · simp only [List.cons_append, List.nil_append]
    rw [stripAux_esc_pair]
  · have ha := hexDigit_facts (c.toNat / 16) (by omega)
    have hb := hexDigit_facts (c.toNat % 16) (by omega)
    simp only [List.cons_append, List.nil_append]
    rw [stripAux_esc_pair, stripAux_inStr '0' (by decide) (by decide),
      stripAux_inStr '0' (by decide) (by decide),
      stripAux_inStr _ ha.1 ha.2.1, stripAux_inStr _ hb.1 hb.2.1]
  · simp only [List.cons_append, List.nil_append]
    rw [stripAux_inStr c h2 h1]

/-- Escaped string contents pass through the stripper unchanged inside a
string literal. -/
theorem stripAux_escString (s : List Char) (rest : List Char) :
    stripAux true false (escString s ++ rest) =
      escString s ++ stripAux true false rest := by
  induction s with
  | nil => rfl
  | cons c cs ih =>
    simp only [escString, List.append_assoc]
    rw [stripAux_escapeChar, ih]

/-- A whole string literal passes through the stripper unchanged and leaves
the scan outside any string literal. -/
theorem stripAux_strLit (s : List Char) (rest : List Char) :
    stripAux false false (strLit s ++ rest) =
      strLit s ++ stripAux false false rest := by
  unfold strLit
  simp only [List.cons_append, List.append_assoc, List.singleton_append]
  rw [stripAux_open_quote, stripAux_escString, stripAux_close_quote]
  simp

/-- Indentation is dropped entirely by the stripper. -/
theorem stripAux_indent (d : Nat) (rest : List Char) :
    stripAux false false (indentChars d ++ rest) = stripAux false false rest := by
  induction d with
  | zero => rfl
  | succ d ih =>
    simp only [indentChars, List.cons_append]
    rw [stripAux_ws ' ' (by decide) (by decide),
      stripAux_ws ' ' (by decide) (by decide), ih]

/-- An integer rendering passes through the stripper unchanged. -/
theorem stripAux_renderInt (n : Int) (rest : List Char) :
    stripAux false false (renderInt n ++ rest) =
      renderInt n ++ stripAux false false rest :=
  stripAux_neutral (renderInt n) (renderInt_facts n) rest

mutual
/-- Compact JSON text contains no insignificant whitespace: it passes the
stripper unchanged. -/
theorem stripC : ∀ (j : Json) (rest : List Char),
    stripAux false false (renderC j ++ rest) =
      renderC j ++ stripAux false false rest
  | Json.null, rest => stripAux_neutral _ (by decide) rest
  | Json.bool true, rest => stripAux_neutral _ (by decide) rest
  | Json.bool false, rest => stripAux_neutral _ (by decide) rest
  | Json.num n, rest => stripAux_renderInt n rest
  | Json.str s, rest => stripAux_strLit s rest
  | Json.arr xs, rest => by
    simp only [renderC, List.cons_append, List.append_assoc,
      List.singleton_append, List.nil_append]
    rw [stripAux_keep '[' (by decide) (by decide), stripCArr xs (']' :: rest),
      stripAux_keep ']' (by decide) (by decide)]
  | Json.obj fs, rest => by
    simp only [renderC, List.cons_append, List.append_assoc,
      List.singleton_append, List.nil_append]
    rw [stripAux_keep '{' (by decide) (by decide), stripCObj fs ('}' :: rest),
      stripAux_keep '}' (by decide) (by decide)]

/-- Compact rendering of array elements passes the stripper unchanged. -/
theorem stripCArr : ∀ (xs : JArr) (rest : List Char),
    stripAux false false (renderCArr xs ++ rest) =
      renderCArr xs ++ stripAux false false rest
  | JArr.nil, _ => rfl
  | JArr.cons x JArr.nil, rest => by
    simp only [renderCArr]
    exact stripC x rest
  | JArr.cons x (JArr.cons y tl), rest => by
    simp only [renderCArr, List.cons_append, List.append_assoc]
    rw [stripC x, stripAux_keep ',' (by decide) (by decide),
      stripCArr (JArr.cons y tl) rest]

/-- Compact rendering of object fields passes the stripper unchanged. -/
theorem stripCObj : ∀ (fs : JObj) (rest : List Char),
    stripAux false false (renderCObj fs ++ rest) =
      renderCObj fs ++ stripAux false false rest
  | JObj.nil, _ => rfl
  | JObj.cons k v JObj.nil, rest => by
    simp only [renderCObj, List.cons_append, List.append_assoc]
    rw [stripAux_strLit, stripAux_keep ':' (by decide) (by decide), stripC v]
  | JObj.cons k v (JObj.cons k2 v2 tl), rest => by
    simp only [renderCObj, List.cons_append, List.append_assoc]
    rw [stripAux_strLit, stripAux_keep ':' (by decide) (by decide), stripC v,
      stripAux_keep ',' (by decide) (by decide),
      stripCObj (JObj.cons k2 v2 tl) rest]
end

mutual
/-- Removing insignificant whitespace from the pretty rendering yields
exactly the compact rendering: the two modes produce the same token
sequence. -/
theorem stripP : ∀ (j : Json) (d : Nat) (rest : List Char),
    stripAux false false (renderP j d ++ rest) =
      renderC j ++ stripAux false false rest
  | Json.null, _, rest => by
    simp only [renderP, renderC]
    exact stripAux_neutral _ (by decide) rest
  | Json.bool true, _, rest => by
    simp only [renderP, renderC]
    exact stripAux_neutral _ (by decide) rest
  | Json.bool false, _, rest => by
    simp only [renderP, renderC]
    exact stripAux_neutral _ (by decide) rest
  | Json.num n, _, rest => by
    simp only [renderP, renderC]
    exact stripAux_renderInt n rest
  | Json.str s, _, rest => by
    simp only [renderP, renderC]
    exact stripAux_strLit s rest
  | Json.arr JArr.nil, _, rest => by
    simp only [renderP, renderC, renderCArr, List.cons_append,
      List.nil_append, List.singleton_append]
    rw [stripAux_keep '[' (by decide) (by decide),
      stripAux_keep ']' (by decide) (by decide)]
  | Json.arr (JArr.cons x tl), d, rest => by
    simp only [renderP, renderC, List.cons_append, List.append_assoc,
      List.singleton_append, List.nil_append]
    rw [stripAux_keep '[' (by decide) (by decide),
      stripAux_ws '\n' (by decide) (by decide),
      stripPArr (JArr.cons x tl) (d + 1),
      stripAux_ws '\n' (by decide) (by decide), stripAux_indent,
      stripAux_keep ']' (by decide) (by decide)]
  | Json.obj JObj.nil, _, rest => by
    simp only [renderP, renderC, renderCObj, List.cons_append,
      List.nil_append, List.singleton_append]
    rw [stripAux_keep '{' (by decide) (by decide),
      stripAux_keep '}' (by decide) (by decide)]
  | Json.obj (JObj.cons k v tl), d, rest => by
    simp only [renderP, renderC, List.cons_append, List.append_assoc,
      List.singleton_append, List.nil_append]
    rw [stripAux_keep '{' (by decide) (by decide),
      stripAux_ws '\n' (by decide) (by decide),
      stripPObj (JObj.cons k v tl) (d + 1),
      stripAux_ws '\n' (by decide) (by decide), stripAux_indent,
      stripAux_keep '}' (by decide) (by decide)]

/-- Pretty array elements strip to compact array elements. -/
theorem stripPArr : ∀ (xs : JArr) (d : Nat) (rest : List Char),
    stripAux false false (renderPArr xs d ++ rest) =
      renderCArr xs ++ stripAux false false rest
  | JArr.nil, _, _ => rfl
  | JArr.cons x JArr.nil, d, rest => by
    simp only [renderPArr, renderCArr, List.append_assoc]
    rw [stripAux_indent, stripP x d rest]
  | JArr.cons x (JArr.cons y tl), d, rest => by
    simp only [renderPArr, renderCArr, List.cons_append, List.append_assoc]
    rw [stripAux_indent, stripP x d,
      stripAux_keep ',' (by decide) (by decide),
      stripAux_ws '\n' (by decide) (by decide),
      stripPArr (JArr.cons y tl) d rest]

/-- Pretty object fields strip to compact object fields: the indentation,
the newlines and the space after the colon disappear. -/
theorem stripPObj : ∀ (fs : JObj) (d : Nat) (rest : List Char),
    stripAux false false (renderPObj fs d ++ rest) =
      renderCObj fs ++ stripAux false false rest
  | JObj.nil, _, _ => rfl
  | JObj.cons k v JObj.nil, d, rest => by
    simp only [renderPObj, renderCObj, List.cons_append, List.append_assoc]
    rw [stripAux_indent, stripAux_strLit,
      stripAux_keep ':' (by decide) (by decide),
      stripAux_ws ' ' (by decide) (by decide), stripP v d rest]
  | JObj.cons k v (JObj.cons k2 v2 tl), d, rest => by
    simp only [renderPObj, renderCObj, List.cons_append, List.append_assoc]
    rw [stripAux_indent, stripAux_strLit,
      stripAux_keep ':' (by decide) (by decide),
      stripAux_ws ' ' (by decide) (by decide), stripP v d,
      stripAux_keep ',' (by decide) (by decide),
      stripAux_ws '\n' (by decide) (by decide),
      stripPObj (JObj.cons k2 v2 tl) d rest]
end

theorem ne_nl_of_ws_false (c : Char) (h : jsonWs c = false) : c ≠ '\n' := by
  intro hc
  rw [hc] at h
  exact absurd h (by decide)

theorem escapeChar_no_newline (c : Char) : '\n' ∉ escapeChar c := by
  unfold escapeChar
  split_ifs with h1 h2 h3 h4 h5 h6 h7 h8
  · decide
  · decide
  · decide
  · decide
  · decide
  · decide
  · decide
  · intro hm
    have ha := hexDigit_facts (c.toNat / 16) (by omega)
    have hb := hexDigit_facts (c.toNat % 16) (by omega)
    rcases List.mem_cons.mp hm with h | hm
    · exact absurd h (by decide)
    rcases List.mem_cons.mp hm with h | hm
    · exact absurd h (by decide)
    rcases List.mem_cons.mp hm with h | hm
    · exact absurd h (by decide)
    rcases List.mem_cons.mp hm with h | hm
    · exact absurd h (by decide)
    rcases List.mem_cons.mp hm with h | hm
    · exact ha.2.2.1 h.symm
    rcases List.mem_cons.mp hm with h | hm
    · exact hb.2.2.1 h.symm
    · exact absurd hm (by decide)
  · intro hm
    simp only [List.mem_singleton] at hm
    exact h5 hm.symm

theorem escString_no_newline (s : List Char) : '\n' ∉ escString s := by
  induction s with
  | nil => simp [escString]
  | cons c cs ih =>
    simp only [escString, List.mem_append]
    intro h
    rcases h with h | h
    · exact escapeChar_no_newline c h
    · exact ih h

theorem strLit_no_newline (s : List Char) : '\n' ∉ strLit s := by
  unfold strLit
  simp only [List.mem_cons, List.mem_append, List.mem_singleton]
  intro h
  rcases h with h | h | h
  · exact absurd h (by decide)
  · exact escString_no_newline s h
  · exact absurd h (by decide)

theorem renderInt_no_newline (n : Int) : '\n' ∉ renderInt n := by
  intro h
  exact absurd ((renderInt_facts n '\n' h).2) (by decide)

mutual
/-- Compact JSON text contains no newline character. -/
theorem renderC_no_newline : ∀ (j : Json), '\n' ∉ renderC j
  | Json.null => by decide
  | Json.bool true => by decide
  | Json.bool false => by decide
  | Json.num n => renderInt_no_newline n
  | Json.str s => strLit_no_newline s
  | Json.arr xs => by
    intro h
    simp only [renderC, List.mem_cons, List.mem_append,
      List.mem_singleton] at h
    rcases h with h | h | h
    · exact absurd h (by decide)
    · exact renderCArr_no_newline xs h
    · exact absurd h (by decide)
  | Json.obj fs => by
    intro h
    simp only [renderC, List.mem_cons, List.mem_append,
      List.mem_singleton] at h
    rcases h with h | h | h
    · exact absurd h (by decide)
    · exact renderCObj_no_newline fs h
    · exact absurd h (by decide)

/-- Compact array-element text contains no newline character. -/
theorem renderCArr_no_newline : ∀ (xs : JArr), '\n' ∉ renderCArr xs
  | JArr.nil => by
    intro h
    simp [renderCArr] at h
  | JArr.cons x JArr.nil => by
    intro h
    simp only [renderCArr] at h
    exact renderC_no_newline x h
  | JArr.cons x (JArr.cons y tl) => by
    intro h
    simp only [renderCArr, List.mem_append, List.mem_cons] at h
    rcases h with h | h | h
    · exact renderC_no_newline x h
    · exact absurd h (by decide)
    · exact renderCArr_no_newline (JArr.cons y tl) h

/-- Compact object-field text contains no newline character. -/
theorem renderCObj_no_newline : ∀ (fs : JObj), '\n' ∉ renderCObj fs
  | JObj.nil => by
    intro h
    simp [renderCObj] at h
  | JObj.cons k v JObj.nil => by
    intro h
    simp only [renderCObj, List.mem_append, List.mem_cons] at h
    rcases h with h | h | h
    · exact strLit_no_newline k h
    · exact absurd h (by decide)
    · exact renderC_no_newline v h
  | JObj.cons k v (JObj.cons k2 v2 tl) => by
    intro h
    simp only [renderCObj] at h
    rcases List.mem_append.mp h with h | h
    · rcases List.mem_append.mp h with h | h
      · exact strLit_no_newline k h
      rcases List.mem_cons.mp h with h | h
      · exact absurd h (by decide)
      · exact renderC_no_newline v h
    rcases List.mem_cons.mp h with h | h
    · exact absurd h (by decide)
    · exact renderCObj_no_newline (JObj.cons k2 v2 tl) h
end

/-- Escaping is the identity on a string whose characters all need no
escape. -/
theorem escString_id (s : List Char) (h : ∀ c ∈ s, escapeChar c = [c]) :
    escString s = s := by
  induction s with
  | nil => rfl
  | cons c cs ih =>
    simp only [escString]
    rw [h c (List.mem_cons_self c cs),
      ih (fun x hx => h x (List.mem_cons_of_mem c hx))]
    rfl

/-- Sequential formatting calls on the same receiver: the list of texts the
calls write, one call per binding kind in the call sequence.  The recursion
carries no state from one call to the next, mirroring the emitted
implementations, which share no mutable state. -/
def runCalls (input : DeriveInput) (v : SerOutcome) :
    List BindingKind → List (List Char)
  | [] => []
  | k :: ks => bindingOutput k input v :: runCalls input v ks

/-- A concrete derive input used in concrete-scenario statements. -/
def exampleInput : DeriveInput :=
  { ident := "TestStruct".data, data := TypeShape.structShape ["id".data] }

/-- The record `{id: 42, name: "test", active: true}` of the spec's concrete
scenario, as the serializer's JSON tree. -/
def exampleRecord : Json :=
  Json.obj (JObj.cons "id".data (Json.num 42)
    (JObj.cons "name".data (Json.str "test".data)
      (JObj.cons "active".data (Json.bool true) JObj.nil)))

/-- C1: for every annotated type and every value, the binding-kind-to-mode
mapping is fixed and total (debug-pretty and display-pretty call the
serializer's pretty mode, debug-simple and display-simple its compact mode),
the emitted impl does not depend on the type's shape, and on success the
sink receives the serializer's text verbatim, with no trailing
modification. -/
theorem binding_mode_fixed_total_verbatim :
    (∀ (k : BindingKind) (input : DeriveInput),
      (deriveFor k input).body.serFn = specModeTable k) ∧
    (∀ (k : BindingKind) (ident : List Char) (s1 s2 : TypeShape),
      deriveFor k { ident := ident, data := s1 } =
        deriveFor k { ident := ident, data := s2 }) ∧
    (∀ (k : BindingKind) (input : DeriveInput) (j : Json),
      runSerFn (deriveFor k input).body.serFn (SerOutcome.ok j) =
        Except.ok (bindingOutput k input (SerOutcome.ok j))) := by
  refine ⟨fun k input => ?_, fun k ident s1 s2 => ?_, fun k input j => ?_⟩
  · cases k <;> rfl
  · cases k <;> rfl
  · cases k <;>
      simp [bindingOutput, fmtOutput, fmtActions, runSerFn, sinkText,
        deriveFor, derive_debug_pretty, derive_display_pretty,
        derive_debug_simple, derive_display_simple]

/-- C2: on serialization failure every binding writes exactly the literal
text `Error serializing to JSON: ` followed by the serializer's own error
description; and for every outcome the effect trace is a single full write
(never an abort, never a truncated mix), so the formatting call is
infallible from the caller's perspective. -/
theorem error_path_exact_and_infallible :
    (∀ (k : BindingKind) (input : DeriveInput) (e : List Char),
      fmtActions (deriveFor k input).body (SerOutcome.err e) =
        [FmtAction.write ("Error serializing to JSON: ".data ++ e)]) ∧
    (∀ (k : BindingKind) (input : DeriveInput) (e : List Char),
      bindingOutput k input (SerOutcome.err e) =
        "Error serializing to JSON: ".data ++ e) ∧
    (∀ (k : BindingKind) (input : DeriveInput) (v : SerOutcome),
      ∃ t : List Char,
        fmtActions (deriveFor k input).body v = [FmtAction.write t] ∧
        bindingOutput k input v = t) := by
  refine ⟨fun k input e => ?_, fun k input e => ?_, fun k input v => ?_⟩
  · cases k <;>
      simp [fmtActions, runSerFn, deriveFor, derive_debug_pretty,
        derive_display_pretty, derive_debug_simple, derive_display_simple,
        errLeadText]
  · cases k <;>
      simp [bindingOutput, fmtOutput, fmtActions, runSerFn, sinkText,
        deriveFor, derive_debug_pretty, derive_display_pretty,
        derive_debug_simple, derive_display_simple, errLeadText]
  · cases k <;> cases v <;>
      exact ⟨_, rfl, by
        simp [bindingOutput, fmtOutput, fmtActions, runSerFn, sinkText,
          deriveFor, derive_debug_pretty, derive_display_pretty,
          derive_debug_simple, derive_display_simple]⟩

/-- C3: the emitted fmt implementation never aborts the program: no effect
trace ever contains a panic, for any binding kind, input type and
serialization outcome. -/
theorem emitted_fmt_never_panics :
    ∀ (k : BindingKind) (input : DeriveInput) (v : SerOutcome),
      FmtAction.abort ∉ fmtActions (deriveFor k input).body v := by
  intro k input v
  cases k <;> cases v <;>
    simp [fmtActions, runSerFn, deriveFor, derive_debug_pretty,
      derive_display_pretty, derive_debug_simple, derive_display_simple]

/-- Witness for C3 at a concrete binding, input and outcome. -/
theorem emitted_fmt_never_panics_witness :
    FmtAction.abort ∉
      fmtActions (deriveFor BindingKind.debugPretty exampleInput).body
        (SerOutcome.ok Json.null) :=
  emitted_fmt_never_panics BindingKind.debugPretty exampleInput
    (SerOutcome.ok Json.null)

/-- C4: under the simple-mode bindings (DebugSimple, DisplaySimple) the
output is byte-for-byte the serializer's compact rendering and contains no
newline character; the spec's record `{id: 42, name: "test", active: true}`
under display-simple yields exactly the compact form, keys in declaration
order. -/
theorem simple_mode_single_line_byte_exact :
    (∀ (input : DeriveInput) (j : Json),
      bindingOutput BindingKind.debugSimple input (SerOutcome.ok j) =
          renderC j ∧
        bindingOutput BindingKind.displaySimple input (SerOutcome.ok j) =
          renderC j ∧
        '\n' ∉ renderC j) ∧
    bindingOutput BindingKind.displaySimple exampleInput
        (SerOutcome.ok exampleRecord) =
      '{' :: ("\"id\":42,\"name\":\"test\",\"active\":true".data ++ ['}']) := by
  constructor
  · intro input j
    refine ⟨?_, ?_, renderC_no_newline j⟩ <;>
      simp [bindingOutput, fmtOutput, fmtActions, runSerFn, sinkText,
        deriveFor, derive_debug_simple, derive_display_simple]
  · decide

/-- Witness for C4 at a concrete input and value. -/
theorem simple_mode_single_line_byte_exact_witness :
    bindingOutput BindingKind.debugSimple exampleInput
          (SerOutcome.ok Json.null) =
        renderC Json.null ∧
      bindingOutput BindingKind.displaySimple exampleInput
          (SerOutcome.ok Json.null) =
        renderC Json.null ∧
      '\n' ∉ renderC Json.null :=
  simple_mode_single_line_byte_exact.1 exampleInput Json.null

/-- C5: for every value whose serialization succeeds, the pretty-mode text
and the simple-mode text are identical once insignificant whitespace
(whitespace outside string literals) is removed, so both consist of the same
JSON token sequence and any standard JSON parser parses them back to equal
values. -/
theorem pretty_simple_same_parsed_value :
    ∀ (input : DeriveInput) (j : Json),
      stripWs (bindingOutput BindingKind.debugPretty input (SerOutcome.ok j)) =
          stripWs
            (bindingOutput BindingKind.debugSimple input (SerOutcome.ok j)) ∧
        stripWs
            (bindingOutput BindingKind.displayPretty input
              (SerOutcome.ok j)) =
          stripWs
            (bindingOutput BindingKind.displaySimple input
              (SerOutcome.ok j)) := by
  intro input j
  have hp : stripWs (renderP j 0) = renderC j := by
    have h := stripP j 0 []
    simpa [stripWs, stripAux] using h
  have hc : stripWs (renderC j) = renderC j := by
    have h := stripC j []
    simpa [stripWs, stripAux] using h
  constructor <;>
    · simp only [bindingOutput, fmtOutput, fmtActions, runSerFn, sinkText,
        deriveFor, derive_debug_pretty, derive_display_pretty,
        derive_debug_simple, derive_display_simple, List.append_nil]
      rw [hp, hc]

/-- C6: a tagged-union variant with no associated data formats, under every
binding kind, to exactly its tag name as a quoted JSON string with no
surrounding object and no multi-line expansion; a variant carrying named
fields formats to a single-key JSON object whose key is the tag name and
whose value is the object of that variant's fields (shown in compact and in
pretty mode). -/
theorem tagged_union_encoding :
    (∀ (k : BindingKind) (input : DeriveInput) (tag : List Char),
      (∀ c ∈ tag, escapeChar c = [c]) →
        bindingOutput k input (SerOutcome.ok (serializeUnitVariant tag)) =
          '"' :: (tag ++ ['"'])) ∧
    (∀ (input : DeriveInput) (tag : List Char) (fields : JObj),
      bindingOutput BindingKind.debugSimple input
          (SerOutcome.ok (serializeStructVariant tag fields)) =
        '{' :: (strLit tag ++ ':' :: renderC (Json.obj fields) ++ ['}'])) ∧
    (∀ (input : DeriveInput) (tag : List Char) (fields : JObj),
      bindingOutput BindingKind.debugPretty input
          (SerOutcome.ok (serializeStructVariant tag fields)) =
        '{' :: '\n' :: ' ' :: ' ' ::
          (strLit tag ++ ':' :: ' ' :: renderP (Json.obj fields) 1 ++
            '\n' :: ['}'])) := by
  refine ⟨fun k input tag h => ?_, fun input tag fields => ?_,
    fun input tag fields => ?_⟩
  · cases k <;>
      simp [bindingOutput, fmtOutput, fmtActions, runSerFn, sinkText,
        deriveFor, derive_debug_pretty, derive_display_pretty,
        derive_debug_simple, derive_display_simple, serializeUnitVariant,
        renderP, renderC, strLit, escString_id tag h]
  · have h1 : renderC (Json.obj (JObj.cons tag (Json.obj fields) JObj.nil)) =
        '{' :: (renderCObj (JObj.cons tag (Json.obj fields) JObj.nil) ++
          ['}']) := rfl
    have h2 : renderCObj (JObj.cons tag (Json.obj fields) JObj.nil) =
        strLit tag ++ ':' :: renderC (Json.obj fields) := rfl
    simp only [bindingOutput, fmtOutput, fmtActions, runSerFn, sinkText,
      deriveFor, derive_debug_simple, serializeStructVariant,
      List.append_nil, h1, h2]
  · have h1 : renderP (Json.obj (JObj.cons tag (Json.obj fields) JObj.nil))
          0 =
        '{' :: '\n' ::
          (renderPObj (JObj.cons tag (Json.obj fields) JObj.nil) 1 ++
            '\n' :: indentChars 0 ++ ['}']) := rfl
    have h2 : renderPObj (JObj.cons tag (Json.obj fields) JObj.nil) 1 =
        indentChars 1 ++ strLit tag ++
          ':' :: ' ' :: renderP (Json.obj fields) 1 := rfl
    simp only [bindingOutput, fmtOutput, fmtActions, runSerFn, sinkText,
      deriveFor, derive_debug_pretty, serializeStructVariant,
      List.append_nil, h1, h2, indentChars]
    simp [List.append_assoc]

/-- Witness for C6 at the concrete unit variant `Active` under the
debug-pretty binding. -/
theorem tagged_union_encoding_witness :
    bindingOutput BindingKind.debugPretty exampleInput
        (SerOutcome.ok
          (serializeUnitVariant ['A', 'c', 't', 'i', 'v', 'e'])) =
      '"' :: (['A', 'c', 't', 'i', 'v', 'e'] ++ ['"']) :=
  tagged_union_encoding.1 BindingKind.debugPretty exampleInput
    ['A', 'c', 't', 'i', 'v', 'e'] (by decide)

/-- C7: an optional field holding no value formats as JSON null under every
binding kind, and an optional field holding a value formats exactly as the
bare encoded inner value, with no extra wrapping layer — also inside an
object field. -/
theorem optional_field_encoding :
    (∀ (k : BindingKind) (input : DeriveInput),
      bindingOutput k input (SerOutcome.ok (serializeOption none)) =
        ['n', 'u', 'l', 'l']) ∧
    (∀ (k : BindingKind) (input : DeriveInput) (j : Json),
      bindingOutput k input (SerOutcome.ok (serializeOption (some j))) =
        bindingOutput k input (SerOutcome.ok j)) ∧
    (∀ (input : DeriveInput) (name : List Char) (j : Json),
      bindingOutput BindingKind.displaySimple input
          (SerOutcome.ok
            (Json.obj (JObj.cons name (serializeOption (some j)) JObj.nil))) =
        '{' :: (strLit name ++ ':' :: renderC j ++ ['}'])) := by
  refine ⟨fun k input => ?_, fun k input j => ?_, fun input name j => ?_⟩
  · cases k <;>
      simp [bindingOutput, fmtOutput, fmtActions, runSerFn, sinkText,
        deriveFor, derive_debug_pretty, derive_display_pretty,
        derive_debug_simple, derive_display_simple, serializeOption,
        renderP, renderC]
  · cases k <;> rfl
  · simp [bindingOutput, fmtOutput, fmtActions, runSerFn, sinkText,
      deriveFor, derive_display_simple, serializeOption, renderC,
      renderCObj]

/-- C8: special characters in string fields are escaped per standard JSON
rules in both modes: a double quote becomes backslash-quote, a newline
becomes backslash-n, a tab becomes backslash-t, every other control
character below 0x20 is escaped with a leading backslash as well, and under
every binding kind a string value renders as a quoted literal of its escaped
contents. -/
theorem special_chars_escaped :
    escapeChar '"' = ['\\', '"'] ∧
    escapeChar '\n' = ['\\', 'n'] ∧
    escapeChar '\t' = ['\\', 't'] ∧
    (∀ c : Char, c.toNat < 32 → ∃ t, escapeChar c = '\\' :: t) ∧
    (∀ (k : BindingKind) (input : DeriveInput) (s : List Char),
      bindingOutput k input (SerOutcome.ok (Json.str s)) =
        '"' :: (escString s ++ ['"'])) := by
  refine ⟨by decide, by decide, by decide, fun c h => ?_,
    fun k input s => ?_⟩
  · unfold escapeChar
    split_ifs with h1 h2 h3 h4 h5 h6 h7
    · exact ⟨_, rfl⟩
    · exact ⟨_, rfl⟩
    · exact ⟨_, rfl⟩
    · exact ⟨_, rfl⟩
    · exact ⟨_, rfl⟩
    · exact ⟨_, rfl⟩
    · exact ⟨_, rfl⟩
    · exact ⟨_, rfl⟩
  · cases k <;>
      simp [bindingOutput, fmtOutput, fmtActions, runSerFn, sinkText,
        deriveFor, derive_debug_pretty, derive_display_pretty,
        derive_debug_simple, derive_display_simple, renderP, renderC,
        strLit]

/-- Witness for C8 at the concrete control character 0x01. -/
theorem special_chars_escaped_witness :
    ∃ t, escapeChar '\x01' = '\\' :: t :=
  special_chars_escaped.2.2.2.1 '\x01' (by decide)

/-- C9: the emitted implementations are deterministic and stateless: in any
sequence of formatting calls on the same receiver, each call's output is a
function of its binding kind alone (so two calls of the same convention
agree and the two conventions do not interact), the debug-pretty binding
always yields the pretty text and the display-simple binding always yields
the simple text. -/
theorem bindings_deterministic_stateless :
    (∀ (input : DeriveInput) (v : SerOutcome) (seq : List BindingKind),
      runCalls input v seq = seq.map (fun k => bindingOutput k input v)) ∧
    (∀ (input : DeriveInput) (j : Json),
      bindingOutput BindingKind.debugPretty input (SerOutcome.ok j) =
          renderP j 0 ∧
        bindingOutput BindingKind.displaySimple input (SerOutcome.ok j) =
          renderC j) := by
  constructor
  · intro input v seq
    induction seq with
    | nil => rfl
    | cons k ks ih => simp [runCalls, ih]
  · intro input j
    constructor <;>
      simp [bindingOutput, fmtOutput, fmtActions, runSerFn, sinkText,
        deriveFor, derive_debug_pretty, derive_display_simple]

/-- C10: the fmt body emitted by DebugPretty is identical to the one emitted
by DisplayPretty, and the one emitted by DebugSimple to the one emitted by
DisplaySimple; only the implemented trait differs, so a type deriving both
conventions in the same mode formats identically under both, for every
receiver and every serialization outcome. -/
theorem debug_display_bodies_identical :
    (∀ input : DeriveInput,
      (derive_debug_pretty input).body = (derive_display_pretty input).body) ∧
    (∀ input : DeriveInput,
      (derive_debug_simple input).body = (derive_display_simple input).body) ∧
    (∀ input : DeriveInput,
      (derive_debug_pretty input).typeName =
          (derive_display_pretty input).typeName ∧
        (derive_debug_pretty input).traitKind = TraitKind.debugTrait ∧
        (derive_display_pretty input).traitKind = TraitKind.displayTrait ∧
        (derive_debug_simple input).traitKind = TraitKind.debugTrait ∧
        (derive_display_simple input).traitKind = TraitKind.displayTrait) ∧
    (∀ (input : DeriveInput) (v : SerOutcome),
      fmtOutput (derive_debug_pretty input).body v =
        fmtOutput (derive_display_pretty input).body v) ∧
    (∀ (input : DeriveInput) (v : SerOutcome),
      fmtOutput (derive_debug_simple input).body v =
        fmtOutput (derive_display_simple input).body v) :=
  ⟨fun _ => rfl, fun _ => rfl, fun _ => ⟨rfl, rfl, rfl, rfl, rfl⟩,
    fun _ _ => rfl, fun _ _ => rfl⟩

end PrettySimpleDisplay
